import Mathlib

/-!
Verification of the pmgr `pmgrUtils` command-line engine.

The development shallowly embeds `pmgr/OBSOLETE/pmgrUtils.py`: the registry
(`Pmgr`) is a pair of tables (committed database and cached views), the
operations `saveConfig`, `applyConfig`, `importConfigs`, `Diff`, the
`changesn` routine of `main`, and the token expander `parsePVArguments` are
translated function by function.  Helper routines that live in the
`utilsPlus` module (absent from the sources) are modelled from the
specification; each such definition says so in its doc comment.

String manipulation is re-implemented over `List Char` (`String.data`) so
that every definition evaluates inside the kernel.
-/

/-- Decidable digit test on a character (ASCII `0`-`9`), used by the
identifier expander. -/
def isDigitB (c : Char) : Bool := 48 ≤ c.toNat && c.toNat ≤ 57

/-- Numeric value of a digit character. -/
def digitVal (c : Char) : Nat := c.toNat - 48

/-- Kernel-evaluable rendition of Python `int(s)` restricted to the inputs
that occur here: all-digit, non-empty strings parse, everything else raises
(returns `none`). -/
def toNatQ (s : String) : Option Nat :=
  if s.data ≠ [] ∧ s.data.all isDigitB = true then
    some (s.data.foldl (fun n c => 10 * n + digitVal c) 0)
  else none

/-- Two-digit zero-padded decimal rendering, Python `f"{n:02}"`. -/
def pad2 (n : Nat) : String :=
  if n < 10 then String.mk ('0' :: Nat.toDigits 10 n)
  else String.mk (Nat.toDigits 10 n)

/-- Split a character list at every occurrence of the separator, Python
`str.split`. -/
def splitOnChar (c : Char) (l : List Char) : List (List Char) :=
  l.foldr
    (fun d acc =>
      if d = c then [] :: acc
      else
        match acc with
        | [] => [[d]]
        | h :: t => (d :: h) :: t)
    [[]]

/-- ASCII upper-casing of one character, Python `str.upper` per character. -/
def upChar (c : Char) : Char :=
  if 'a' ≤ c ∧ c ≤ 'z' then Char.ofNat (c.toNat - 32) else c

/-- ASCII upper-casing, Python `str.upper`. -/
def upStr (s : String) : String := String.mk (s.data.map upChar)

/-- Boolean lexicographic comparison on character lists by code point; this
is the order Python `list.sort` uses on strings. -/
def lexLeB : List Char → List Char → Bool
  | [], _ => true
  | _ :: _, [] => false
  | a :: as, b :: bs =>
    if a.toNat < b.toNat then true
    else if a.toNat = b.toNat then lexLeB as bs
    else false

/-- Lexicographic (code-point) order on strings. -/
def strLe (s t : String) : Prop := lexLeB s.data t.data = true

instance : DecidableRel strLe := fun s t =>
  inferInstanceAs (Decidable (lexLeB s.data t.data = true))

/-- Modelled from the spec: `utilsPlus.getBasePV` on one token — a token is
a full identifier when it is longer than three characters, mentions a colon
and ends in a two-digit numeric suffix; the base is the token with that
suffix stripped (`SXR:EXP:MMS:01 ↦ SXR:EXP:MMS:`).  `utilsPlus` is not in
the sources; the spec describes deriving "one shared base identifier" from
full identifiers. -/
def getBasePV (s : String) : Option String :=
  if ':' ∈ s.data ∧ 3 < s.data.length ∧
      (s.data.drop (s.data.length - 2)).all isDigitB = true then
    some (String.mk (s.data.take (s.data.length - 2)))
  else none

/-- First hyphen-delimited part of a token (so the base can be derived from
a leading range token such as `SXR:EXP:MMS:01-05`). -/
def firstPart (t : String) : String :=
  String.mk ((splitOnChar '-' t.data).headD [])

/-- Modelled from the spec: `utilsPlus.getBasePV` applied to the whole
argument list — "derive one shared base identifier from the first token
that yields a valid base". -/
def getBasePVList : List String → Option String
  | [] => none
  | a :: rest =>
    match getBasePV (firstPart a) with
    | some b => some b
    | none => getBasePVList rest

/-- Python `set.add` on the deterministic list model of the set `PVs`. -/
def insertPV (S : List String) (x : String) : List String :=
  if x ∈ S then S else S ++ [x]

/-- The `while start <= end` loop of `parsePVArguments`: add
`basePV + f"{i:02}"` for every `i` in the inclusive range. -/
def addRange (B : String) (S : List String) (st en : Nat) : List String :=
  (List.range' st (en + 1 - st)).foldl (fun acc n => insertPV acc (B ++ pad2 n)) S

/-- Second hyphen-delimited part of a token (`splitArgs[1]`). -/
def secondPart (t : String) : String :=
  String.mk ((splitOnChar '-' t.data).getD 1 [])

/-- Range expansion step of the hyphen branch: parse the two bounds
(`int(splitArgs[0][-2:])`, `int(splitArgs[1])`) and expand inclusively; a
parse failure (Python exception) keeps the already-updated set `S1`. -/
def rangeAdds (B : String) (S1 : List String) (p0 p1 : String) : List String :=
  match toNatQ (String.mk (p0.data.drop (p0.data.length - 2))), toNatQ p1 with
  | some st, some en => addRange B S1 st en
  | some _, none => S1
  | none, _ => S1

/-- One iteration of the `for arg in PVArguments` loop of
`parsePVArguments`, including the `try/except` semantics: a parse failure
keeps the mutations already performed on the set and moves on. -/
def processTok (B : String) (S : List String) (t : String) : List String :=
  if '-' ∈ t.data then
    rangeAdds B
      (if getBasePV (firstPart t) = some B then insertPV S (firstPart t) else S)
      (firstPart t) (secondPart t)
  else if 3 < t.data.length then
    if getBasePV t = some B then insertPV S t else S
  else if t.data.length < 3 then
    match toNatQ t with
    | some n => insertPV S (B ++ pad2 n)
    | none => S
  else S

/-- `pmgrUtils.parsePVArguments`: derive the base, fold every token through
`processTok`, and return the sorted list of collected identifiers (`None`
when no base can be derived). -/
def parsePVArguments (args : List String) : Option (List String) :=
  if args.length = 0 then none
  else
    match getBasePVList args with
    | none => none
    | some B => some (List.insertionSort strLe (args.foldl (processTok B) []))

/-- A token the expander cannot parse: a hyphenated token whose first part
yields neither the base nor a numeric lower bound, or a short token that is
not a number. -/
def malformedTok (B : String) (t : String) : Prop :=
  ('-' ∈ t.data ∧ getBasePV (firstPart t) ≠ some B ∧
    toNatQ (String.mk ((firstPart t).data.drop ((firstPart t).data.length - 2))) = none) ∨
  ('-' ∉ t.data ∧ t.data.length < 3 ∧ toNatQ t = none)

instance (B t : String) : Decidable (malformedTok B t) := by
  unfold malformedTok
  infer_instance

/-- Object record: one row of a registry's `objs` table, the fields
`saveConfig`/`applyConfig`/`changesn` manipulate. -/
structure Obj where
  name : String
  FLD_DESC : String
  FLD_SN : String
  rec_base : String
  FLD_PORT : String
  config : Option Nat
deriving DecidableEq, Repr

/-- Configuration record: one row of a registry's `cfgs` table.  `vals` is
the mapping of the remaining field names to values. -/
structure Cfg where
  name : String
  FLD_TYPE : String
  vals : List (String × String)
deriving DecidableEq, Repr

/-- One snapshot of the two registry tables. -/
structure Tables where
  objs : List (Nat × Obj)
  cfgs : List (Nat × Cfg)
deriving DecidableEq, Repr

/-- A pmgr handle: `db` is the committed registry state, `cache` the views
(`pmgr.objs` / `pmgr.cfgs`) which only `updateTables` re-synchronizes, and
`nextId` the next registry-assigned id. -/
structure Pmgr where
  db : Tables
  cache : Tables
  nextId : Nat
deriving DecidableEq, Repr

/-- Assoc-table lookup: Python `pmgr.objs[id]` (`none` = `KeyError`). -/
def lookupT {α : Type} (l : List (Nat × α)) (i : Nat) : Option α :=
  (l.find? (fun q => q.1 == i)).map (fun q => q.2)

/-- Assoc-table full-record overwrite at an id. -/
def setT {α : Type} (l : List (Nat × α)) (i : Nat) (v : α) : List (Nat × α) :=
  l.map (fun q => if q.1 == i then (i, v) else q)

/-- Assoc-table field update at an id. -/
def updT {α : Type} (l : List (Nat × α)) (i : Nat) (f : α → α) : List (Nat × α) :=
  l.map (fun q => if q.1 == i then (q.1, f q.2) else q)

/-- Derived views a registry read can target: one object record, the whole
object table, one configuration record, or the configuration-name list. -/
inductive Tgt where
  | obj (i : Nat)
  | objsView
  | cfg (i : Nat)
  | cfgNames
deriving DecidableEq, Repr

/-- Trace events: committed writes (with the field names written), view
refreshes (`updateTables`), cached-view reads (with the field read, `none`
meaning the whole record), and the device push (`objApply`). -/
inductive Ev where
  | writeObj (i : Nat) (flds : List String)
  | writeCfg (i : Nat) (flds : List String)
  | refresh
  | readV (t : Tgt) (fld : Option String)
  | push (i : Nat)
deriving DecidableEq, Repr

/-- Does a read of field `fld` overlap a write of the fields `flds`? -/
def fieldHit (flds : List String) : Option String → Bool
  | some f => flds.contains f
  | none => !flds.isEmpty

/-- Does the read event (second argument) depend on the write event (first
argument): same target and overlapping fields. -/
def dep : Ev → Ev → Bool
  | .writeObj i flds, .readV (.obj j) f => i == j && fieldHit flds f
  | .writeObj _ flds, .readV .objsView f => fieldHit flds f
  | .writeCfg i flds, .readV (.cfg j) f => i == j && fieldHit flds f
  | .writeCfg _ flds, .readV .cfgNames _ => flds.contains "name"
  | _, _ => false

def isWrite : Ev → Bool
  | .writeObj _ _ => true
  | .writeCfg _ _ => true
  | _ => false

/-- Scanning forward from a write: no dependent read may occur before the
next refresh. -/
def noDepUntilRefresh (w : Ev) : List Ev → Bool
  | [] => true
  | e :: rest => e == .refresh || (!dep w e && noDepUntilRefresh w rest)

/-- The refresh discipline of the specification: in the trace, every
committed write is followed by a view refresh before any read that depends
on it. -/
def compliantB : List Ev → Bool
  | [] => true
  | e :: rest => (!isWrite e || noDepUntilRefresh e rest) && compliantB rest

/-- Is some refresh present? -/
def hasRefresh : List Ev → Bool
  | [] => false
  | e :: rest => e == .refresh || hasRefresh rest

/-- A trace chunk is closed when every write in it is followed by a refresh
still inside the chunk (so nothing appended later can depend on it
unrefreshed). -/
def closedB : List Ev → Bool
  | [] => true
  | e :: rest => (!isWrite e || hasRefresh rest) && closedB rest

/-- The five object fields a live snapshot carries. -/
def fldsLive : List String := ["name", "FLD_DESC", "FLD_SN", "rec_base", "FLD_PORT"]

/-- All object fields, as written by a full-record `objectChange`
transaction or an object creation. -/
def fldsAll : List String := ["name", "FLD_DESC", "FLD_SN", "rec_base", "FLD_PORT", "config"]

/-- All configuration fields, as written by a full-record `configChange`
transaction or a configuration creation. -/
def fldsCfgAll : List String := ["name", "FLD_TYPE", "vals"]

/-- The configuration fields an in-place value update writes (the name is
kept). -/
def fldsCfgVals : List String := ["FLD_TYPE", "vals"]

/-- `pmgr.updateTables()`: re-synchronize the cached views from the
committed state. -/
def updateTables (p : Pmgr) : Pmgr := { p with cache := p.db }

/-- Modelled from the spec: `utilsPlus.allCfgNames` — the configuration
name list, read from the cached view (`listConfigNames`). -/
def allCfgNames (p : Pmgr) : List String := p.cache.cfgs.map (fun q => q.2.name)

/-- Object name list, read from the cached view (the object-name side of
the Naming Engine). -/
def allObjNames (p : Pmgr) : List String := p.cache.objs.map (fun q => q.2.name)

/-- Modelled from the spec: `utilsPlus.getObjWithSN` — linear scan of the
object view for an exact identity match. -/
def getObjWithSN (p : Pmgr) (sn : String) : Option Nat :=
  (p.cache.objs.find? (fun q => q.2.FLD_SN == sn)).map (fun q => q.1)

/-- Modelled from the spec: the Naming Engine `nextName` — return the
candidate when unused, otherwise append a deterministic numeric suffix
until an unused name is found. -/
def nextName (used : List String) (cand : String) : String :=
  if used.contains cand then
    match (List.range (used.length + 1)).find?
        (fun k => !(used.contains (cand ++ "_" ++ toString k))) with
    | some k => cand ++ "_" ++ toString k
    | none => cand
  else cand

/-- Modelled from the spec: `utilsPlus.nextObjName` (object-name scope). -/
def nextObjName (p : Pmgr) (cand : String) : String := nextName (allObjNames p) cand

/-- Modelled from the spec: `utilsPlus.nextCfgName` (configuration-name
scope). -/
def nextCfgName (p : Pmgr) (cand : String) : String := nextName (allCfgNames p) cand

/-- Modelled from the spec: `utilsPlus.objUpdate` with a live-value dict —
commit the five live object fields; the linkage (`config`) is untouched. -/
def objUpdateVals (p : Pmgr) (i : Nat) (d : Obj) : Pmgr :=
  { p with db := { p.db with objs := updT p.db.objs i (fun o =>
      { o with name := d.name, FLD_DESC := d.FLD_DESC, FLD_SN := d.FLD_SN,
               rec_base := d.rec_base, FLD_PORT := d.FLD_PORT }) } }

/-- Modelled from the spec: `utilsPlus.objUpdate` with the one-field dict
`{"FLD_SN": sn}` used by `changesn`. -/
def objUpdateSN (p : Pmgr) (i : Nat) (sn : String) : Pmgr :=
  { p with db := { p.db with objs := updT p.db.objs i (fun o => { o with FLD_SN := sn }) } }

/-- Modelled from the spec: `utilsPlus.newObject` (`createObject`) — commit
a new object row under a fresh id; the new row is not yet linked to a real
configuration. -/
def newObject (p : Pmgr) (d : Obj) : Pmgr × Nat :=
  ({ p with
      db := { p.db with objs := p.db.objs ++ [(p.nextId, { d with config := none })] },
      nextId := p.nextId + 1 }, p.nextId)

/-- Modelled from the spec: `utilsPlus.newConfig` (`createConfig`) — commit
a new configuration row under a fresh id, named by the explicit name
argument. -/
def newConfig (p : Pmgr) (c : Cfg) (nm : String) : Pmgr × Nat :=
  ({ p with
      db := { p.db with cfgs := p.db.cfgs ++ [(p.nextId, { c with name := nm })] },
      nextId := p.nextId + 1 }, p.nextId)

/-- Modelled from the spec: `utilsPlus.setObjCfg` (`linkObjectToConfig`). -/
def setObjCfg (p : Pmgr) (i : Nat) (c : Nat) : Pmgr :=
  { p with db := { p.db with objs := updT p.db.objs i (fun o => { o with config := some c }) } }

/-- Modelled from the spec: `utilsPlus.updateConfig` — reuse branch of the
Linkage Manager: update the linked configuration's field values in place
(id and name kept). -/
def updateConfigVals (p : Pmgr) (c : Nat) (d : Cfg) : Pmgr :=
  { p with db := { p.db with cfgs := updT p.db.cfgs c (fun k =>
      { k with FLD_TYPE := d.FLD_TYPE, vals := d.vals }) } }

/-- Modelled from the spec: `utilsPlus.transaction(pmgr, "objectChange",
id, record)` — commit a full object record under the given id. -/
def objectChange (p : Pmgr) (i : Nat) (o : Obj) : Pmgr :=
  { p with db := { p.db with objs := setT p.db.objs i o } }

/-- Modelled from the spec: `utilsPlus.transaction(pmgr, "configChange",
id, record)`; a `None` id is a failed transaction whose result the caller
ignores. -/
def configChange (p : Pmgr) (c : Option Nat) (k : Cfg) : Pmgr :=
  match c with
  | none => p
  | some i => { p with db := { p.db with cfgs := setT p.db.cfgs i k } }

/-- Modelled from the spec: `utilsPlus.getAndSetConfig` — create a new
configuration record from the payload and link the object to it. -/
def getAndSetConfig (p : Pmgr) (i : Nat) (c : Cfg) : Pmgr × Nat :=
  match newConfig p c c.name with
  | (p1, cid) => (setObjCfg p1 i cid, cid)

/-- The bare `except: pass` around a `printDiff` call: whatever the diff
engine call returns or raises, the operation proceeds. -/
def caught : Except String Unit → Option Unit
  | .ok _ => some ()
  | .error _ => some ()

/-- The `printDiff` attempt of `saveConfig`: in the branch that created a
new configuration, `objOld`/`cfgOld` were never assigned, so the call
raises `NameError` — also swallowed by the bare `except`. -/
def caughtDiff (old : Option (Obj × Cfg)) (pd : Except String Unit) : Option Unit :=
  match old with
  | none => some ()
  | some _ => caught pd

/-- Tail of `pmgrUtils.saveConfig` after the diff attempt is reached
(lines 203-210): the cached configuration and object records are read for
the report only when `cfgID and objID` are truthy (Python: non-`None` and
non-zero); a `KeyError` on those reads would be uncaught, the `printDiff`
attempt itself is wrapped in a bare `except`. -/
def saveDiff (p5 : Pmgr) (objID : Nat) (cfgID : Option Nat) (pd : Except String Unit)
    (old : Option (Obj × Cfg)) (tr : List Ev) : Option (Pmgr × List Ev) :=
  match cfgID with
  | some c =>
    if c ≠ 0 ∧ objID ≠ 0 then
      match lookupT p5.cache.cfgs c, lookupT p5.cache.objs objID with
      | some _, some _ =>
        (caughtDiff old pd).bind (fun _ =>
          some (p5, tr ++ [.readV (.cfg c) none, .readV (.obj objID) none]))
      | _, _ => none
    else some (p5, tr)
  | none => some (p5, tr)

/-- Lines 187-202 of `pmgrUtils.saveConfig`: refresh, then (when renaming)
read the object and its linked configuration from the views, compute fresh
names from the description, and commit both transactions — the
`configChange` transaction targets `cfgID`, the id captured before the
linkage branch ran. -/
def saveFinish (p2 : Pmgr) (objID : Nat) (cfgID : Option Nat) (rename : Bool)
    (pd : Except String Unit) (old : Option (Obj × Cfg)) (tr : List Ev) :
    Option (Pmgr × List Ev) :=
  match rename with
  | false => saveDiff (updateTables p2) objID cfgID pd old (tr ++ [.refresh])
  | true =>
    match lookupT (updateTables p2).cache.objs objID with
    | none => none
    | some o =>
      match o.config with
      | none => none
      | some lc =>
        match lookupT (updateTables p2).cache.cfgs lc with
        | none => none
        | some k =>
          saveDiff
            (configChange
              (objectChange (updateTables p2) objID
                { o with name := nextObjName (updateTables p2) o.FLD_DESC })
              cfgID
              { k with name := nextCfgName (updateTables p2) o.FLD_DESC })
            objID cfgID pd old
            (tr ++ [.refresh, .readV (.obj objID) none, .readV (.cfg lc) none,
              .readV .objsView (some "name"), .readV .cfgNames none,
              .writeObj objID fldsAll] ++
              (match cfgID with
               | some c => [.writeCfg c fldsCfgAll]
               | none => []))

/-- The create-and-link alternative of the linkage branch (line 181,
`getAndSetConfig`); `cfgID` stays whatever was read before the branch. -/
def saveCreate (p1 : Pmgr) (objID : Nat) (cfgID : Option Nat) (rename : Bool)
    (pd : Except String Unit) (cfgDict : Cfg) (tr : List Ev) : Option (Pmgr × List Ev) :=
  saveFinish (getAndSetConfig p1 objID cfgDict).1 objID cfgID rename pd none
    (tr ++ [.writeCfg (getAndSetConfig p1 objID cfgDict).2 fldsCfgAll,
      .writeObj objID ["config"]])

/-- Lines 157-185 of `pmgrUtils.saveConfig`: read the object's linkage
from the cached view (a `KeyError` yields `None`), then either update the
linked configuration in place (when the id is truthy and its name differs
case-insensitively from the hutch label) or create a new configuration and
link it. -/
def saveBranch (p1 : Pmgr) (objID : Nat) (hutch : String) (cfgDict : Cfg)
    (rename : Bool) (pd : Except String Unit) (tr : List Ev) : Option (Pmgr × List Ev) :=
  match (lookupT p1.cache.objs objID).bind (fun o => o.config) with
  | some c =>
    if c ≠ 0 then
      match lookupT p1.cache.cfgs c with
      | none => none
      | some k =>
        if upStr k.name ≠ upStr hutch then
          saveFinish (updateConfigVals p1 c cfgDict) objID (some c) rename pd
            ((lookupT p1.cache.objs objID).map (fun o => (o, k)))
            (tr ++ [.readV (.obj objID) (some "config"), .writeCfg c fldsCfgVals])
        else
          saveCreate p1 objID (some c) rename pd cfgDict
            (tr ++ [.readV (.obj objID) (some "config")])
    else
      saveCreate p1 objID (some c) rename pd cfgDict
        (tr ++ [.readV (.obj objID) (some "config")])
  | none =>
    saveCreate p1 objID none rename pd cfgDict
      (tr ++ [.readV (.obj objID) (some "config")])

/-- `pmgrUtils.saveConfig` given the live snapshots (`getCfgVals`,
`getObjVals` deliver `cfgDict`/`objDict`): resolve the object by identity,
update or create it, run the linkage branch, refresh, optionally rename,
then attempt the diff report. -/
def saveConfig (p : Pmgr) (hutch : String) (objDict : Obj) (cfgDict : Cfg)
    (rename : Bool) (pd : Except String Unit) : Option (Pmgr × List Ev) :=
  match getObjWithSN p objDict.FLD_SN with
  | some objID =>
    saveBranch (objUpdateVals p objID objDict) objID hutch cfgDict rename pd
      [.readV .cfgNames none, .readV .objsView (some "FLD_SN"),
        .writeObj objID fldsLive]
  | none =>
    match newObject p { objDict with name := nextObjName p objDict.name } with
    | (p1, objID) =>
      saveBranch p1 objID hutch cfgDict rename pd
        [.readV .cfgNames none, .readV .objsView (some "FLD_SN"),
          .writeObj objID fldsAll]

/-- The `objApply` push and the diff attempt closing `applyConfig` (lines
334-353); the push itself writes the device, not the registry, and the
diff attempt is wrapped in a bare `except`. -/
def applyPush (p : Pmgr) (objID : Nat) (pd : Except String Unit) (tr : List Ev) :
    Option (Pmgr × List Ev) :=
  (caught pd).bind (fun _ => some (p, tr ++ [.push objID]))

/-- `pmgrUtils.applyConfig`, smart-motor path (`dumb=False`, `name=None`),
after `getMostRecentObj` resolved `objID`: when the record's live address
or port differs from the live values, overwrite both, commit the object,
refresh and re-read; then push the configuration to the device and attempt
the diff report. -/
def applyConfig (p : Pmgr) (objID : Nat) (PV port : String)
    (pd : Except String Unit) : Option (Pmgr × List Ev) :=
  match lookupT p.cache.objs objID with
  | none => none
  | some o =>
    if o.rec_base ≠ PV ∨ o.FLD_PORT ≠ port then
      match lookupT (updateTables (objectChange p objID
          { o with rec_base := PV, FLD_PORT := port })).cache.objs objID with
      | none => none
      | some _ =>
        applyPush (updateTables (objectChange p objID
            { o with rec_base := PV, FLD_PORT := port })) objID pd
          [.readV (.obj objID) none, .writeObj objID fldsAll, .refresh,
            .readV (.obj objID) none]
    else applyPush p objID pd [.readV (.obj objID) none]

/-- The `changesn` branch of `pmgrUtils.main` for one hutch registry
(lines 675-697): find the object carrying the old identity; when absent,
the registry is left untouched; otherwise commit `{"FLD_SN": new}`,
refresh, and re-read the stored identity for the report. -/
def changesnOne (p : Pmgr) (oldSN newSN : String) : Pmgr × List Ev :=
  match getObjWithSN p oldSN with
  | none => (p, [.readV .objsView (some "FLD_SN")])
  | some i =>
    (updateTables (objUpdateSN p i newSN),
      [.readV .objsView (some "FLD_SN"), .writeObj i ["FLD_SN"], .refresh,
        .readV (.obj i) (some "FLD_SN")])

/-- The `changesn` loop over all requested hutch registries. -/
def changesn (ps : List Pmgr) (oldSN newSN : String) : List (Pmgr × List Ev) :=
  ps.map (fun p => changesnOne p oldSN newSN)

/-- One legacy import-file field dictionary (`getImportFieldDict`): the
same dictionary serves as `cfgDict` and `objDict` in `importConfigs`. -/
structure Rec where
  FLD_DESC : String
  FLD_SN : String
  FLD_TYPE : String
  vals : List (String × String)
deriving DecidableEq, Repr

/-- Lines 391-396 of `pmgrUtils.importConfigs`: derive the record's name
from the description, the serial number, or the fallback label. -/
def recName (r : Rec) : String :=
  if r.FLD_DESC ≠ "" then r.FLD_DESC
  else if r.FLD_SN ≠ "" then "SN:" ++ r.FLD_SN
  else "Unknown"

/-- Modelled from the spec: identity canonicalization — pad a serial
number with leading zeros to the registry's fixed width (nine here). -/
def padSN (s : String) : String :=
  if s.data.length < 9 then String.mk (List.replicate (9 - s.data.length) '0' ++ s.data)
  else s

/-- `utilsPlus.checkSNLength` applied to an import field dictionary. -/
def checkSNLength (r : Rec) : Rec := { r with FLD_SN := padSN r.FLD_SN }

/-- Modelled from the spec: `utilsPlus.cfgFromName` — look a configuration
id up by name in the cached view. -/
def cfgFromName (p : Pmgr) (nm : String) : Option Nat :=
  (p.cache.cfgs.find? (fun q => q.2.name == nm)).map (fun q => q.1)

/-- Modelled from the spec: `utilsPlus.cfgUpdate` — overwrite the
configuration's field values (name kept); a `None` id is a failed call. -/
def cfgUpdate (p : Pmgr) (c : Option Nat) (r : Rec) : Pmgr :=
  match c with
  | none => p
  | some i => { p with db := { p.db with cfgs := updT p.db.cfgs i (fun k =>
      { k with FLD_TYPE := r.FLD_TYPE, vals := r.vals }) } }

/-- One iteration of the `for motor in old_cfg_paths` loop of
`pmgrUtils.importConfigs`.  `dumb` is hardcoded `True` at line 388, so
every record takes the configuration-name branch (lines 401-436) and the
loop continues before the serial-number logic at line 438 is reached: a
known name is skipped or (with the update flag) value-updated, an unknown
name becomes a new configuration named by the record's description. -/
def importStep (update : Bool) (pr : Pmgr × List Ev) (r0 : Rec) : Pmgr × List Ev :=
  if recName r0 ∈ allCfgNames pr.1 then
    if update then
      (updateTables (cfgUpdate (updateTables pr.1)
          (cfgFromName (updateTables pr.1) (recName r0)) (checkSNLength r0)),
        pr.2 ++ [.readV .cfgNames none, .refresh, .readV .cfgNames none] ++
          (match cfgFromName (updateTables pr.1) (recName r0) with
           | some i => [.writeCfg i fldsCfgVals]
           | none => []) ++ [.refresh])
    else
      (updateTables pr.1, pr.2 ++ [.readV .cfgNames none, .refresh])
  else
    (updateTables (newConfig (updateTables pr.1)
        { name := "", FLD_TYPE := (checkSNLength r0).FLD_TYPE, vals := (checkSNLength r0).vals }
        (checkSNLength r0).FLD_DESC).1,
      pr.2 ++ [.readV .cfgNames none, .refresh,
        .writeCfg (newConfig (updateTables pr.1)
          { name := "", FLD_TYPE := (checkSNLength r0).FLD_TYPE, vals := (checkSNLength r0).vals }
          (checkSNLength r0).FLD_DESC).2 fldsCfgAll, .refresh])

/-- `pmgrUtils.importConfigs` over the record list derived from the legacy
directory (`createmotordb` + `getImportFieldDict`); `get_all_SN` is read
once up front. -/
def importConfigs (p : Pmgr) (recs : List Rec) (update : Bool) : Pmgr × List Ev :=
  recs.foldl (importStep update) (p, [.readV .objsView (some "FLD_SN")])

/-- `pmgrUtils.Diff` given the live snapshots: resolve the object by
identity, read its linkage and the two records from the views, and attempt
the diff report (wrapped in a bare `except`). -/
def Diff (p : Pmgr) (objLive : Obj) (pd : Except String Unit) : Option (Pmgr × List Ev) :=
  match getObjWithSN p objLive.FLD_SN with
  | none => some (p, [.readV .objsView (some "FLD_SN")])
  | some i =>
    match (lookupT p.cache.objs i).bind (fun o => o.config) with
    | none => some (p, [.readV .objsView (some "FLD_SN"), .readV (.obj i) (some "config")])
    | some c =>
      if c ≠ 0 then
        match lookupT p.cache.cfgs c, lookupT p.cache.objs i with
        | some _, some _ =>
          (caught pd).bind (fun _ =>
            some (p, [.readV .objsView (some "FLD_SN"), .readV (.obj i) (some "config"),
              .readV (.cfg c) none, .readV (.obj i) none]))
        | _, _ => none
      else some (p, [.readV .objsView (some "FLD_SN"), .readV (.obj i) (some "config")])

/-- Sentinel configuration of the SXR domain: its name equals the hutch
label (spec §3, "default/placeholder configuration"). -/
def exSentinel : Cfg := { name := "SXR", FLD_TYPE := "ims_motor", vals := [("FLD_PN", "PN-OLD")] }

/-- An object linked to the sentinel configuration. -/
def exObj : Obj :=
  { name := "mms 01"
    FLD_DESC := "SXR Motor 01"
    FLD_SN := "000123456"
    rec_base := "SXR:EXP:MMS:01"
    FLD_PORT := "digi-a"
    config := some 7 }

def exTables : Tables := { objs := [(1, exObj)], cfgs := [(7, exSentinel)] }

/-- A freshly opened registry handle (views synchronized). -/
def exPmgr : Pmgr := { db := exTables, cache := exTables, nextId := 8 }

/-- Live object snapshot for the save (`getObjVals`). -/
def exObjDict : Obj :=
  { name := "SXR Motor 01"
    FLD_DESC := "SXR Motor 01"
    FLD_SN := "000123456"
    rec_base := "SXR:EXP:MMS:01"
    FLD_PORT := "digi-a"
    config := none }

/-- Live configuration payload for the save (`getCfgVals`). -/
def exCfgDict : Cfg := { name := "SXR Motor 01", FLD_TYPE := "ims_motor", vals := [("FLD_PN", "PN-NEW")] }

/-- A save, with renaming enabled (the default), against the object whose
linked configuration is the sentinel. -/
def exSaveRun : Option (Pmgr × List Ev) := saveConfig exPmgr "sxr" exObjDict exCfgDict true (Except.ok ())

/-- Does the trace push the configuration of object `i` to the device? -/
def hasPush (i : Nat) : List Ev → Bool
  | [] => false
  | .push j :: rest => j == i || hasPush i rest
  | _ :: rest => hasPush i rest

/-- Does the trace contain a full-record commit of object `i` strictly
before a device push for `i`? -/
def writeBeforePush (i : Nat) : List Ev → Bool
  | [] => false
  | .writeObj j f :: rest => (j == i && f == fldsAll && hasPush i rest) || writeBeforePush i rest
  | _ :: rest => writeBeforePush i rest

/-- The claim's phrasing of the identity rename, for comparison with the
code: the first object whose identity equals the old value gets the new
value; every other row is untouched. -/
def renameFirstSN : List (Nat × Obj) → String → String → List (Nat × Obj)
  | [], _, _ => []
  | (k, o) :: rest, a, b =>
    if o.FLD_SN = a then (k, { o with FLD_SN := b }) :: rest
    else (k, o) :: renameFirstSN rest a b

/-- The object of `exRegA` (identity `"001"`, unlinked). -/
def exObjA : Obj := { exObj with FLD_SN := "001", config := none }

/-- Registry containing the identity `"001"` (for the rename scenario). -/
def exRegA : Pmgr :=
  { db := { objs := [(3, exObjA)], cfgs := [(4, exSentinel)] }
    cache := { objs := [(3, exObjA)], cfgs := [(4, exSentinel)] }
    nextId := 5 }

/-- Registry not containing the identity `"001"`. -/
def exRegB : Pmgr :=
  { db :=
      { objs := [(6, { exObj with FLD_SN := "002", config := none })]
        cfgs := [(2, exSentinel)] }
    cache :=
      { objs := [(6, { exObj with FLD_SN := "002", config := none })]
        cfgs := [(2, exSentinel)] }
    nextId := 7 }

/-- A legacy import record whose identity is new to the registry. -/
def exFresh : Rec :=
  { FLD_DESC := "New Motor"
    FLD_SN := "000987654"
    FLD_TYPE := "ims_motor"
    vals := [("FLD_PN", "PN-1")] }

/-- An empty, freshly opened registry. -/
def exEmptyPmgr : Pmgr :=
  { db := { objs := [], cfgs := [] }
    cache := { objs := [], cfgs := [] }
    nextId := 1 }


theorem lexLeB_total : ∀ (l m : List Char), lexLeB l m = true ∨ lexLeB m l = true := by
  intro l
  induction l with
  | nil => intro m; left; rfl
  | cons a as ih =>
    intro m
    cases m with
    | nil => right; rfl
    | cons b bs =>
      by_cases h1 : a.toNat < b.toNat
      · left; simp [lexLeB, h1]
      · by_cases h2 : a.toNat = b.toNat
        · rcases ih bs with h | h
          · left; simp [lexLeB, h1, h2, h]
          · right
            have hba : ¬ b.toNat < a.toNat := by omega
            simp [lexLeB, hba, h2.symm, h]
        · right
          have hba : b.toNat < a.toNat := by omega
          simp [lexLeB, hba]

theorem lexLeB_trans : ∀ (l m n : List Char),
    lexLeB l m = true → lexLeB m n = true → lexLeB l n = true := by
  intro l
  induction l with
  | nil => intro m n _ _; rfl
  | cons a as ih =>
    intro m n h1 h2
    cases m with
    | nil => simp [lexLeB] at h1
    | cons b bs =>
      cases n with
      | nil => simp [lexLeB] at h2
      | cons c cs =>
        simp only [lexLeB] at h1 h2 ⊢
        split_ifs at h1 h2 ⊢ <;> first
          | rfl
          | omega
          | (exact ih bs cs h1 h2)

instance : IsTotal String strLe := ⟨fun s t => lexLeB_total s.data t.data⟩

instance : IsTrans String strLe := ⟨fun s t u => lexLeB_trans s.data t.data u.data⟩

theorem mem_insertPV {S : List String} {x y : String} :
    x ∈ insertPV S y ↔ x = y ∨ x ∈ S := by
  by_cases h : y ∈ S
  · simp only [insertPV, if_pos h]
    constructor
    · exact Or.inr
    · rintro (rfl | hx)
      · exact h
      · exact hx
  · simp [insertPV, if_neg h, or_comm]

theorem nodup_insertPV {S : List String} {x : String} (h : S.Nodup) :
    (insertPV S x).Nodup := by
  by_cases hx : x ∈ S
  · simpa [insertPV, hx] using h
  · simp [insertPV, hx, List.nodup_append, h]

theorem nodup_foldl_insertPV (f : Nat → String) :
    ∀ (l : List Nat) (S : List String), S.Nodup →
      (l.foldl (fun acc n => insertPV acc (f n)) S).Nodup := by
  intro l
  induction l with
  | nil => intro S h; exact h
  | cons a t ih => intro S h; exact ih _ (nodup_insertPV h)

theorem nodup_addRange {B : String} {S : List String} {st en : Nat} (h : S.Nodup) :
    (addRange B S st en).Nodup :=
  nodup_foldl_insertPV (fun n => B ++ pad2 n) _ _ h

theorem nodup_rangeAdds {B : String} {S1 : List String} {p0 p1 : String} (h : S1.Nodup) :
    (rangeAdds B S1 p0 p1).Nodup := by
  unfold rangeAdds
  split
  · exact nodup_addRange h
  · exact h
  · exact h

theorem nodup_processTok {B : String} {S : List String} {t : String} (h : S.Nodup) :
    (processTok B S t).Nodup := by
  have hS1 : ∀ p : String, ((if getBasePV p = some B then insertPV S p else S)).Nodup := by
    intro p
    split
    · exact nodup_insertPV h
    · exact h
  unfold processTok
  by_cases h1 : '-' ∈ t.data
  · rw [if_pos h1]
    exact nodup_rangeAdds (hS1 _)
  · rw [if_neg h1]
    by_cases h2 : 3 < t.data.length
    · rw [if_pos h2]
      exact hS1 _
    · rw [if_neg h2]
      by_cases h3 : t.data.length < 3
      · rw [if_pos h3]
        split
        · exact nodup_insertPV h
        · exact h
      · rw [if_neg h3]
        exact h

theorem nodup_fold_processTok {B : String} :
    ∀ (args S : List String), S.Nodup → (args.foldl (processTok B) S).Nodup := by
  intro args
  induction args with
  | nil => intro S h; exact h
  | cons a t ih => intro S h; exact ih _ (nodup_processTok h)

theorem splitOnChar_of_not_mem {c : Char} {l : List Char} (h : c ∉ l) :
    splitOnChar c l = [l] := by
  induction l with
  | nil => rfl
  | cons d t ih =>
    have hd : d ≠ c := fun hdc => h (hdc ▸ List.mem_cons_self d t)
    have ht : c ∉ t := fun hct => h (List.mem_cons_of_mem d hct)
    simp only [splitOnChar, List.foldr] at *
    rw [if_neg hd]
    rw [ih ht]

/-- C5: for a token list whose derived base is `B`, the range token
`"03-06"` contributes exactly the identifiers `B03`, `B04`, `B05`, `B06`
to the set, and every returned sequence is duplicate-free and sorted
lexicographically ascending. -/
theorem parsePV_range_exact_nodup_sorted :
    (∀ (args : List String) (B : String) (S : List String),
      getBasePVList args = some B →
      (processTok B S "03-06").toFinset =
        S.toFinset ∪ {B ++ "03", B ++ "04", B ++ "05", B ++ "06"}) ∧
    (∀ args res : List String,
      parsePVArguments args = some res →
      res.Nodup ∧ List.Sorted strLe res) := by
  constructor
  · intro args B S _
    have hred : processTok B S "03-06" =
        insertPV (insertPV (insertPV (insertPV S (B ++ "03")) (B ++ "04")) (B ++ "05"))
          (B ++ "06") := rfl
    rw [hred]
    ext x
    simp only [List.mem_toFinset, mem_insertPV, Finset.mem_union, Finset.mem_insert,
      Finset.mem_singleton]
    tauto
  · intro args res h
    unfold parsePVArguments at h
    split_ifs at h
    rcases hb : getBasePVList args with _ | B
    · rw [hb] at h; exact absurd h (by simp)
    · rw [hb] at h
      simp only [Option.some.injEq] at h
      subst h
      constructor
      · exact ((List.perm_insertionSort strLe _)).symm.nodup
          (nodup_fold_processTok args [] (by simp))
      · exact List.sorted_insertionSort strLe _

/-- C5 witness: concrete instance of both conjuncts. -/
theorem parsePV_range_exact_nodup_sorted_witness :
    ((processTok "AB:CD:" ["AB:CD:09"] "03-06").toFinset =
      (["AB:CD:09"] : List String).toFinset ∪
        {"AB:CD:" ++ "03", "AB:CD:" ++ "04", "AB:CD:" ++ "05", "AB:CD:" ++ "06"}) ∧
    (["AB:CD:03", "AB:CD:04", "AB:CD:05", "AB:CD:06", "AB:CD:09"] : List String).Nodup ∧
      List.Sorted strLe ["AB:CD:03", "AB:CD:04", "AB:CD:05", "AB:CD:06", "AB:CD:09"] := by
  refine ⟨?_, ?_⟩
  · exact parsePV_range_exact_nodup_sorted.1 ["AB:CD:09", "03-06"] "AB:CD:" ["AB:CD:09"] rfl
  · exact parsePV_range_exact_nodup_sorted.2 ["AB:CD:09", "03-06"]
      ["AB:CD:03", "AB:CD:04", "AB:CD:05", "AB:CD:06", "AB:CD:09"] rfl

/-- C9: expansion returns `none` on an empty token list or when no base can
be derived; a malformed token is skipped without disturbing the fold over
the remaining tokens. -/
theorem parsePV_failure_modes :
    parsePVArguments [] = none ∧
    (∀ args : List String, getBasePVList args = none → parsePVArguments args = none) ∧
    (∀ (B : String) (S : List String) (t : String) (rest : List String),
      malformedTok B t →
      (t :: rest).foldl (processTok B) S = rest.foldl (processTok B) S) := by
  refine ⟨rfl, ?_, ?_⟩
  · intro args h
    unfold parsePVArguments
    split_ifs
    · rfl
    · rw [h]
  · intro B S t rest h
    have hstep : processTok B S t = S := by
      unfold processTok
      rcases h with ⟨h1, h2, h3⟩ | ⟨h1, h2, h3⟩
      · rw [if_pos h1]
        unfold rangeAdds
        rw [if_neg h2, h3]
      · rw [if_neg h1, if_neg (by omega), if_pos h2, h3]
    simp only [List.foldl, hstep]

/-- C9 witness. -/
theorem parsePV_failure_modes_witness :
    parsePVArguments ["xyz"] = none ∧
    List.foldl (processTok "B:") ["B:01"] ["a-b"] = ["B:01"] := by
  constructor
  · exact parsePV_failure_modes.2.1 ["xyz"] rfl
  · exact parsePV_failure_modes.2.2 "B:" ["B:01"] "a-b" [] (by decide)

/-- C10: a hyphen-free token of exactly three characters contributes
nothing: the set is unchanged and the token cannot determine the base. -/
theorem len3_token_dropped :
    ∀ (B : String) (S : List String) (t : String),
      '-' ∉ t.data → t.data.length = 3 →
      processTok B S t = S ∧
        ∀ rest : List String, getBasePVList (t :: rest) = getBasePVList rest := by
  intro B S t h1 h2
  constructor
  · unfold processTok
    rw [if_neg h1, if_neg (by omega), if_neg (by omega)]
  · intro rest
    have hfp : firstPart t = t := by
      unfold firstPart
      rw [splitOnChar_of_not_mem h1]
      rfl
    have hbase : getBasePV (firstPart t) = none := by
      rw [hfp]
      unfold getBasePV
      rw [if_neg (by omega)]
    simp only [getBasePVList, hbase]

/-- C10 witness. -/
theorem len3_token_dropped_witness :
    processTok "B:" ["B:05"] "100" = ["B:05"] ∧
    getBasePVList ["100", "AB:CD:07"] = getBasePVList ["AB:CD:07"] := by
  have h := len3_token_dropped "B:" ["B:05"] "100" (by decide) (by decide)
  exact ⟨h.1, h.2 ["AB:CD:07"]⟩

theorem caught_eq (e : Except String Unit) : caught e = some () := by
  cases e <;> rfl

theorem caughtDiff_eq (old : Option (Obj × Cfg)) (pd : Except String Unit) :
    caughtDiff old pd = some () := by
  cases old
  · rfl
  · exact caught_eq pd

theorem saveDiff_pd_irrel (p : Pmgr) (i : Nat) (c : Option Nat)
    (old : Option (Obj × Cfg)) (tr : List Ev) (e1 e2 : Except String Unit) :
    saveDiff p i c e1 old tr = saveDiff p i c e2 old tr := by
  unfold saveDiff
  split
  · split_ifs
    · split
      · rw [caughtDiff_eq, caughtDiff_eq]
      · rfl
    · rfl
  · rfl

theorem saveFinish_pd_irrel (p : Pmgr) (i : Nat) (c : Option Nat) (rn : Bool)
    (old : Option (Obj × Cfg)) (tr : List Ev) (e1 e2 : Except String Unit) :
    saveFinish p i c rn e1 old tr = saveFinish p i c rn e2 old tr := by
  unfold saveFinish
  split
  · exact saveDiff_pd_irrel _ _ _ _ _ _ _
  · split
    · rfl
    · split
      · rfl
      · split
        · rfl
        · exact saveDiff_pd_irrel _ _ _ _ _ _ _

theorem saveCreate_pd_irrel (p : Pmgr) (i : Nat) (c : Option Nat) (rn : Bool)
    (cd : Cfg) (tr : List Ev) (e1 e2 : Except String Unit) :
    saveCreate p i c rn e1 cd tr = saveCreate p i c rn e2 cd tr := by
  unfold saveCreate
  exact saveFinish_pd_irrel _ _ _ _ _ _ _ _

theorem saveBranch_pd_irrel (p : Pmgr) (i : Nat) (hutch : String) (cd : Cfg)
    (rn : Bool) (tr : List Ev) (e1 e2 : Except String Unit) :
    saveBranch p i hutch cd rn e1 tr = saveBranch p i hutch cd rn e2 tr := by
  unfold saveBranch
  split
  · split_ifs
    · split
      · rfl
      · split_ifs
        · exact saveFinish_pd_irrel _ _ _ _ _ _ _ _
        · exact saveCreate_pd_irrel _ _ _ _ _ _ _ _
    · exact saveCreate_pd_irrel _ _ _ _ _ _ _ _
  · exact saveCreate_pd_irrel _ _ _ _ _ _ _ _

theorem saveConfig_pd_irrel (p : Pmgr) (hutch : String) (od : Obj) (cd : Cfg)
    (rn : Bool) (e1 e2 : Except String Unit) :
    saveConfig p hutch od cd rn e1 = saveConfig p hutch od cd rn e2 := by
  unfold saveConfig
  split
  · exact saveBranch_pd_irrel _ _ _ _ _ _ _ _
  · split
    exact saveBranch_pd_irrel _ _ _ _ _ _ _ _

theorem applyConfig_pd_irrel (p : Pmgr) (i : Nat) (PV port : String)
    (e1 e2 : Except String Unit) :
    applyConfig p i PV port e1 = applyConfig p i PV port e2 := by
  unfold applyConfig applyPush
  split
  · rfl
  · split_ifs
    · split
      · rfl
      · rw [caught_eq, caught_eq]
    · rw [caught_eq, caught_eq]

theorem Diff_pd_irrel (p : Pmgr) (ol : Obj) (e1 e2 : Except String Unit) :
    Diff p ol e1 = Diff p ol e2 := by
  unfold Diff
  split
  · rfl
  · split
    · rfl
    · split_ifs
      · split
        · rw [caught_eq, caught_eq]
        · rfl
      · rfl

/-- C8: the diff report is advisory — whatever the diff engine call
returns or raises (`e1` versus `e2` ranging over all outcomes), `saveConfig`,
`applyConfig` and `Diff` finish identically: same registry state, same
trace, same completion. -/
theorem diff_report_failures_swallowed :
    ∀ (p : Pmgr) (hutch : String) (od : Obj) (cd : Cfg) (rn : Bool) (objID : Nat)
      (PV port : String) (ol : Obj) (e1 e2 : Except String Unit),
      saveConfig p hutch od cd rn e1 = saveConfig p hutch od cd rn e2 ∧
      applyConfig p objID PV port e1 = applyConfig p objID PV port e2 ∧
      Diff p ol e1 = Diff p ol e2 :=
  fun p hutch od cd rn objID PV port ol e1 e2 =>
    ⟨saveConfig_pd_irrel p hutch od cd rn e1 e2,
     applyConfig_pd_irrel p objID PV port e1 e2,
     Diff_pd_irrel p ol e1 e2⟩

/-- C1: saving (rename enabled, the default) against an object whose
linked configuration is the sentinel runs the create-new branch, but the
closing `configChange` transaction still targets the pre-branch `cfgID` —
the sentinel's id — so the sentinel record is overwritten. -/
theorem saveConfig_clobbers_sentinel :
    exSaveRun.isSome = true ∧
    (exSaveRun.bind (fun q => lookupT q.1.db.cfgs 7)) ≠ some exSentinel := by
  constructor
  · decide
  · decide

/-- C3 counterexample: the same save run's trace commits the rename
transactions and then reads the object and configuration views for the
diff report without an intervening `updateTables`. -/
theorem saveConfig_trace_not_compliant :
    exSaveRun.map (fun q => compliantB q.2) = some false := by
  decide

theorem hasRefresh_append {xs ys : List Ev} (h : hasRefresh xs = true) :
    hasRefresh (xs ++ ys) = true := by
  induction xs with
  | nil => simp [hasRefresh] at h
  | cons e rest ih =>
    simp only [List.cons_append, hasRefresh, Bool.or_eq_true] at h ⊢
    rcases h with h | h
    · exact Or.inl h
    · exact Or.inr (ih h)

theorem noDepUntilRefresh_append {w : Ev} {ys : List Ev} :
    ∀ {xs : List Ev}, noDepUntilRefresh w xs = true → hasRefresh xs = true →
      noDepUntilRefresh w (xs ++ ys) = true := by
  intro xs
  induction xs with
  | nil => intro _ h2; simp [hasRefresh] at h2
  | cons e rest ih =>
    intro h1 h2
    simp only [List.cons_append, noDepUntilRefresh, hasRefresh, Bool.or_eq_true,
      Bool.and_eq_true] at h1 h2 ⊢
    rcases h2 with h2 | h2
    · exact Or.inl h2
    · rcases h1 with h1 | h1
      · exact Or.inl h1
      · exact Or.inr ⟨h1.1, ih h1.2 h2⟩

theorem compliantB_append {xs ys : List Ev} (hx : compliantB xs = true)
    (hcl : closedB xs = true) (hy : compliantB ys = true) :
    compliantB (xs ++ ys) = true := by
  induction xs with
  | nil => simpa using hy
  | cons e rest ih =>
    simp only [List.cons_append, compliantB, closedB, Bool.and_eq_true,
      Bool.or_eq_true] at hx hcl ⊢
    refine ⟨?_, ih hx.2 hcl.2⟩
    rcases hx.1 with h | h
    · exact Or.inl h
    · rcases hcl.1 with h2 | h2
      · exact Or.inl h2
      · exact Or.inr (noDepUntilRefresh_append h h2)

theorem closedB_append {xs ys : List Ev} (hx : closedB xs = true)
    (hy : closedB ys = true) : closedB (xs ++ ys) = true := by
  induction xs with
  | nil => simpa using hy
  | cons e rest ih =>
    simp only [List.cons_append, closedB, Bool.and_eq_true, Bool.or_eq_true] at hx ⊢
    refine ⟨?_, ih hx.2⟩
    rcases hx.1 with h | h
    · exact Or.inl h
    · exact Or.inr (hasRefresh_append h)

theorem importStep_trace (u : Bool) (pr : Pmgr × List Ev) (r : Rec)
    (h1 : compliantB pr.2 = true) (h2 : closedB pr.2 = true) :
    compliantB (importStep u pr r).2 = true ∧ closedB (importStep u pr r).2 = true := by
  unfold importStep
  split_ifs with hm hu
  · rcases cfgFromName (updateTables pr.1) (recName r) with _ | i <;>
      simp only [List.append_assoc, List.nil_append, List.cons_append, List.append_nil] <;>
      exact ⟨compliantB_append h1 h2 (by rfl), closedB_append h2 (by rfl)⟩
  · exact ⟨compliantB_append h1 h2 (by rfl), closedB_append h2 (by rfl)⟩
  · simp only [List.append_assoc, List.nil_append, List.cons_append, List.append_nil]
    exact ⟨compliantB_append h1 h2 (by rfl), closedB_append h2 (by rfl)⟩

theorem importConfigs_compliant_aux (u : Bool) :
    ∀ (recs : List Rec) (pr : Pmgr × List Ev),
      compliantB pr.2 = true → closedB pr.2 = true →
      compliantB (recs.foldl (importStep u) pr).2 = true := by
  intro recs
  induction recs with
  | nil => intro pr h1 _; exact h1
  | cons r rest ih =>
    intro pr h1 h2
    have h := importStep_trace u pr r h1 h2
    exact ih _ h.1 h.2

theorem changesnOne_compliant (p : Pmgr) (a b : String) :
    compliantB (changesnOne p a b).2 = true := by
  unfold changesnOne
  split
  · rfl
  · rfl

theorem applyConfig_compliant (p : Pmgr) (objID : Nat) (PV port : String)
    (pd : Except String Unit) :
    (applyConfig p objID PV port pd).elim True (fun q => compliantB q.2 = true) := by
  unfold applyConfig applyPush
  split
  · trivial
  · split_ifs
    · split
      · trivial
      · rw [caught_eq]
        exact rfl
    · rw [caught_eq]
      exact rfl

/-- C3, amended: every registry write performed by apply, changesn, and
the importer is followed by `updateTables` before any subsequent dependent
read of the cached views; `saveConfig` does not satisfy this (see the
counterexample). -/
theorem refresh_discipline_apply_rename_import :
    (∀ (p : Pmgr) (objID : Nat) (PV port : String) (pd : Except String Unit),
      (applyConfig p objID PV port pd).elim True (fun q => compliantB q.2 = true)) ∧
    (∀ (p : Pmgr) (a b : String), compliantB (changesnOne p a b).2 = true) ∧
    (∀ (p : Pmgr) (recs : List Rec) (u : Bool),
      compliantB (importConfigs p recs u).2 = true) :=
  ⟨applyConfig_compliant, changesnOne_compliant,
   fun _ recs u => importConfigs_compliant_aux u recs _ rfl rfl⟩

theorem lookupT_setT_self {α : Type} :
    ∀ {l : List (Nat × α)} {i : Nat} {v w : α},
      lookupT l i = some v → lookupT (setT l i w) i = some w := by
  intro l
  induction l with
  | nil => intro i v w h; simp [lookupT] at h
  | cons q rest ih =>
    intro i v w h
    by_cases hq : q.1 = i
    · simp [lookupT, setT, hq]
    · simp only [lookupT, setT, List.map_cons] at h ⊢
      rw [if_neg (by simp [hq])]
      rw [List.find?_cons_of_neg _ (by simp [hq])] at h
      rw [List.find?_cons_of_neg _ (by simp [hq])]
      exact ih h

/-- C4: when the resolved object's live address or port differs from the
device's, `applyConfig` overwrites both fields, commits the object, and
that commit appears in the trace strictly before the device push. -/
theorem applyConfig_persists_before_push :
    ∀ (p : Pmgr) (objID : Nat) (PV port : String) (pd : Except String Unit) (o : Obj),
      p.cache = p.db →
      lookupT p.cache.objs objID = some o →
      o.rec_base ≠ PV ∨ o.FLD_PORT ≠ port →
      (applyConfig p objID PV port pd).map
          (fun q => (lookupT q.1.db.objs objID, writeBeforePush objID q.2)) =
        some (some { o with rec_base := PV, FLD_PORT := port }, true) := by
  intro p objID PV port pd o hsync hlook hdiff
  have hdb : lookupT p.db.objs objID = some o := hsync ▸ hlook
  have hset : lookupT (setT p.db.objs objID { o with rec_base := PV, FLD_PORT := port })
      objID = some { o with rec_base := PV, FLD_PORT := port } := lookupT_setT_self hdb
  unfold applyConfig
  rw [hlook]
  simp only [updateTables, objectChange]
  rw [if_pos hdiff, hset]
  unfold applyPush
  rw [caught_eq]
  simp only [Option.bind, Option.map]
  refine congrArg some (Prod.ext ?_ ?_)
  · exact hset
  · simp [writeBeforePush, hasPush]

/-- C4 witness. -/
theorem applyConfig_persists_before_push_witness :
    (applyConfig exRegA 3 "SXR:EXP:MMS:05" "digi-b" (Except.ok ())).map
        (fun q => (lookupT q.1.db.objs 3, writeBeforePush 3 q.2)) =
      some (some { exObjA with rec_base := "SXR:EXP:MMS:05", FLD_PORT := "digi-b" }, true) :=
  applyConfig_persists_before_push exRegA 3 "SXR:EXP:MMS:05" "digi-b" (Except.ok ())
    exObjA rfl (by decide) (by decide)

theorem updT_absent {α : Type} {i : Nat} {f : α → α} :
    ∀ {l : List (Nat × α)}, (∀ q ∈ l, q.1 ≠ i) → updT l i f = l := by
  intro l
  induction l with
  | nil => intro _; rfl
  | cons q rest ih =>
    intro h
    simp only [updT, List.map_cons]
    rw [if_neg (by simp [h q (List.mem_cons_self q rest)])]
    have := ih (fun x hx => h x (List.mem_cons_of_mem q hx))
    simp only [updT] at this
    rw [this]

theorem find?_updT_renameFirst :
    ∀ (l : List (Nat × Obj)) (a b : String),
      (l.map Prod.fst).Nodup →
      ∀ {q : Nat × Obj}, l.find? (fun x => x.2.FLD_SN == a) = some q →
        updT l q.1 (fun o => { o with FLD_SN := b }) = renameFirstSN l a b := by
  intro l
  induction l with
  | nil => intro a b _ q h; simp at h
  | cons x rest ih =>
    intro a b hnd q hfind
    by_cases hx : x.2.FLD_SN = a
    · have hq : q = x := by
        rw [List.find?_cons_of_pos _ (by simp [hx])] at hfind
        exact (Option.some.inj hfind).symm
      subst hq
      simp only [updT, List.map_cons, renameFirstSN, if_pos hx]
      rw [if_pos (by simp)]
      have habs : updT rest q.1 (fun o => { o with FLD_SN := b }) = rest := by
        refine updT_absent ?_
        intro y hy he
        exact (List.nodup_cons.mp hnd).1 (he ▸ List.mem_map_of_mem Prod.fst hy)
      simp only [updT] at habs
      rw [habs]
    · have hfind' : rest.find? (fun y => y.2.FLD_SN == a) = some q := by
        rw [List.find?_cons_of_neg _ (by simp [hx])] at hfind
        exact hfind
      have hq_mem : q ∈ rest := List.mem_of_find?_eq_some hfind'
      have hx1 : x.1 ≠ q.1 := by
        intro he
        exact (List.nodup_cons.mp hnd).1 (he ▸ List.mem_map_of_mem Prod.fst hq_mem)
      simp only [updT, List.map_cons, renameFirstSN, if_neg hx]
      rw [if_neg (by simp [hx1])]
      have := ih a b (List.nodup_cons.mp hnd).2 hfind'
      simp only [updT] at this
      rw [this]

/-- C6: for one registry of the `changesn` loop — when no object carries
the old identity the registry handle is returned completely unmodified;
when one does, exactly that object's identity field is overwritten with
the new value, and the configuration table and id counter are untouched. -/
theorem changesn_renames_exactly :
    ∀ (p : Pmgr) (a b : String),
      p.cache = p.db →
      (p.db.objs.map Prod.fst).Nodup →
      ((p.db.objs.any (fun q => q.2.FLD_SN == a) = false → (changesnOne p a b).1 = p) ∧
       (p.db.objs.any (fun q => q.2.FLD_SN == a) = true →
          (changesnOne p a b).1.db.objs = renameFirstSN p.db.objs a b ∧
          (changesnOne p a b).1.db.cfgs = p.db.cfgs ∧
          (changesnOne p a b).1.nextId = p.nextId)) := by
  intro p a b hsync hnd
  unfold changesnOne getObjWithSN
  rw [hsync]
  rcases hf : p.db.objs.find? (fun x => x.2.FLD_SN == a) with _ | q
  · rw [hf]
    simp only [Option.map_none']
    constructor
    · intro _; trivial
    · intro hany
      exfalso
      rcases List.any_eq_true.mp hany with ⟨x, hxm, hpx⟩
      have := List.find?_eq_none.mp hf x hxm
      rw [hpx] at this
      exact this rfl
  · rw [hf]
    simp only [Option.map_some']
    constructor
    · intro hany
      exfalso
      have hq := List.find?_some hf
      have hqm := List.mem_of_find?_eq_some hf
      have : p.db.objs.any (fun x => x.2.FLD_SN == a) = true :=
        List.any_eq_true.mpr ⟨q, hqm, hq⟩
      rw [hany] at this
      exact Bool.false_ne_true this
    · intro _
      refine ⟨?_, rfl, rfl⟩
      exact find?_updT_renameFirst p.db.objs a b hnd hf

/-- C6 witness: renaming `"001"` to `"999"` leaves the registry without
that identity untouched and rewrites exactly the matching object in the
registry that has it. -/
theorem changesn_renames_exactly_witness :
    (changesnOne exRegB "001" "999").1 = exRegB ∧
    (changesnOne exRegA "001" "999").1.db.objs = renameFirstSN exRegA.db.objs "001" "999" := by
  constructor
  · exact (changesn_renames_exactly exRegB "001" "999" rfl (by decide)).1 (by decide)
  · exact ((changesn_renames_exactly exRegA "001" "999" rfl (by decide)).2 (by decide)).1

theorem cfgUpdate_db_objs (p : Pmgr) (c : Option Nat) (r : Rec) :
    (cfgUpdate p c r).db.objs = p.db.objs := by
  cases c <;> rfl

theorem importStep_db_objs (u : Bool) (pr : Pmgr × List Ev) (r : Rec) :
    (importStep u pr r).1.db.objs = pr.1.db.objs := by
  unfold importStep
  split_ifs
  · exact cfgUpdate_db_objs _ _ _
  · rfl
  · rfl

/-- C2: `importConfigs` never touches the committed object table — with
`dumb` hardcoded `True`, every record takes the configuration-name branch
and the serial-number path (object update, `incrementMatching` rename)
is unreachable. -/
theorem importConfigs_never_updates_objects :
    ∀ (p : Pmgr) (recs : List Rec) (u : Bool),
      (importConfigs p recs u).1.db.objs = p.db.objs := by
  intro p recs u
  unfold importConfigs
  suffices h : ∀ pr : Pmgr × List Ev,
      (recs.foldl (importStep u) pr).1.db.objs = pr.1.db.objs by
    exact h _
  induction recs with
  | nil => intro pr; rfl
  | cons r rest ih =>
    intro pr
    simp only [List.foldl]
    rw [ih _]
    exact importStep_db_objs u pr r

/-- C7: importing a record whose identity is absent from an empty registry
creates only a configuration (named by the record's description) and never
an object — the three-step create/create/link path of the claim is dead
code behind the hardcoded `dumb = True`. -/
theorem importConfigs_fresh_identity_no_object :
    (importConfigs exEmptyPmgr [exFresh] true).1.db.objs = [] ∧
    (importConfigs exEmptyPmgr [exFresh] true).1.db.cfgs.map (fun q => q.2.name) =
      ["New Motor"] := by
  constructor
  · decide
  · decide
